import Mathlib

/-!
# Verification of the ListricKinematicExtender specification

The repository describes (in a tutorial notebook) a tectonic-extension
component, `ListricKinematicExtender`, that applies vertical subsidence and
discrete horizontal shifts to node fields of a uniform grid.  The notebook
contains only a textual algorithm description; the component implementation
itself is not part of the source tree.  Following the specification, the
component is modelled here as a pure state machine over exact rationals:

* `Config` holds the construction-time configuration (§3, §6 of the spec);
* `State` holds the externally owned fields plus the two persistent state
  variables `cumulative_offset` and `hangingwall_edge`;
* `update_subsidence_rate`, `run_one_step`, `do_one_shift` and
  `run_shift_scheduler` model the operations of §4.

The numeric library's exponential is represented by an abstract function
`expf : ℚ → ℚ` carried in the configuration, since none of the structural
properties under scrutiny depend on its values.
-/

namespace ListricKinematicExtender

/-- Modelled from the spec: construction-time configuration of the component
(spec §3 "ExtenderState" configuration part and §6 construction inputs).  The
implementation of `ListricKinematicExtender` is absent from the source tree,
so this is taken from the specification text.  `G0` stands for the precomputed
surface fault gradient `tan(fault_dip)`, and `expf` stands for the numeric
library's exponential function, kept abstract because the embedding works
over exact rationals. -/
structure Config where
  extension_rate : ℚ
  G0 : ℚ
  initial_fault_location : ℚ
  detachment_depth : ℚ
  cell_width : ℚ
  track_crustal_thickness : Bool
  expf : ℚ → ℚ

/-- Modelled from the spec: the mutable simulation state — the externally
owned scalar fields (elevation, optional crustal thickness, the configured
extra fields to shift, the produced subsidence-rate field and the cumulative
subsidence field) together with the two persistent state variables
`cumulative_offset` and `hangingwall_edge` (spec §3).  Fields are maps from
node index to value; the quasi-1D row of the tutorial examples is modelled
with node `i` at x-coordinate `i * cell_width`. -/
structure State where
  elevation : ℕ → ℚ
  thickness : ℕ → ℚ
  extra_fields : List (ℕ → ℚ)
  subsidence_rate : ℕ → ℚ
  cumulative_offset : ℚ
  hangingwall_edge : ℚ
  cumulative_subsidence_depth : ℕ → ℚ

/-- Modelled from the spec: x-coordinate of node `i` on the uniform row
(cell width times index; spec §3 "Mesh node", §4.3 cell width). -/
def xcoord (cfg : Config) (i : ℕ) : ℚ :=
  (i : ℚ) * cfg.cell_width

/-- Modelled from the spec: clamped distance from the initial fault trace,
`d = max(x - initial_fault_location, 0)` (spec §4.1). -/
def dist_from_fault (cfg : Config) (x : ℚ) : ℚ :=
  max (x - cfg.initial_fault_location) 0

/-- Modelled from the spec: the SubsidenceModel rate at a node with
x-coordinate `x`, given the current hangingwall edge:
`rate = -u * G0 * exp(-d * G0 / h)` for nodes at or beyond the fault trace
and at or beyond the current hangingwall edge, `0` otherwise (spec §4.1). -/
def subsidence_rate_at (cfg : Config) (edge : ℚ) (x : ℚ) : ℚ :=
  if cfg.initial_fault_location ≤ x ∧ edge ≤ x then
    -cfg.extension_rate * cfg.G0 *
      cfg.expf (-(dist_from_fault cfg x) * cfg.G0 / cfg.detachment_depth)
  else 0

/-- Modelled from the spec: the public read-only operation
`update_subsidence_rate()` — recompute and store the subsidence-rate field
from the current state without touching anything else (spec §4.2). -/
def update_subsidence_rate (cfg : Config) (s : State) : State :=
  { s with
    subsidence_rate := fun i => subsidence_rate_at cfg s.hangingwall_edge (xcoord cfg i) }

/-- Modelled from the spec: steps 1–3 of `run_one_step` — compute the
subsidence-rate field using the current hangingwall edge, apply
`elevation -= subsidence_rate * dt` at every node, and, when thickness
tracking is enabled, accumulate `cumulative_subsidence_depth` element-wise
with the same masking (spec §4.2 steps 1–3). -/
def apply_vertical (cfg : Config) (dt : ℚ) (s : State) : State :=
  { s with
    subsidence_rate := fun i => subsidence_rate_at cfg s.hangingwall_edge (xcoord cfg i),
    elevation := fun i =>
      s.elevation i - subsidence_rate_at cfg s.hangingwall_edge (xcoord cfg i) * dt,
    cumulative_subsidence_depth :=
      if cfg.track_crustal_thickness then
        fun i =>
          s.cumulative_subsidence_depth i
            + subsidence_rate_at cfg s.hangingwall_edge (xcoord cfg i) * dt
      else s.cumulative_subsidence_depth }

/-- Modelled from the spec: step 4 of `run_one_step` — advance
`cumulative_offset += extension_rate * dt` (spec §4.2 step 4). -/
def advance_offset (cfg : Config) (dt : ℚ) (s : State) : State :=
  { s with cumulative_offset := s.cumulative_offset + cfg.extension_rate * dt }

/-- Modelled from the spec: the shift action on a single field — every node
with x-coordinate at or beyond the pre-shift hangingwall boundary takes the
pre-shift value of its left neighbor one cell lower in x (spec §4.3). -/
def shiftField (cfg : Config) (boundary : ℚ) (f : ℕ → ℚ) : ℕ → ℚ :=
  fun i => if boundary ≤ xcoord cfg i ∧ 1 ≤ i then f (i - 1) else f i

/-- Modelled from the spec: one firing of the ShiftScheduler (spec §4.3) —
shift elevation, the configured extra fields, and (when tracking) the
crustal-thickness field, by one cell toward increasing x over the hangingwall;
when tracking, subtract the accumulated subsidence from the now-shifted
thickness field at hangingwall nodes and reset the accumulator; decrement
`cumulative_offset` and increment `hangingwall_edge` by one cell width. -/
def do_one_shift (cfg : Config) (s : State) : State :=
  { elevation := shiftField cfg s.hangingwall_edge s.elevation,
    thickness :=
      if cfg.track_crustal_thickness then
        fun i =>
          if s.hangingwall_edge ≤ xcoord cfg i then
            shiftField cfg s.hangingwall_edge s.thickness i
              - s.cumulative_subsidence_depth i
          else shiftField cfg s.hangingwall_edge s.thickness i
      else s.thickness,
    extra_fields := s.extra_fields.map (shiftField cfg s.hangingwall_edge),
    subsidence_rate := s.subsidence_rate,
    cumulative_offset := s.cumulative_offset - cfg.cell_width,
    hangingwall_edge := s.hangingwall_edge + cfg.cell_width,
    cumulative_subsidence_depth :=
      if cfg.track_crustal_thickness then fun _ => 0
      else s.cumulative_subsidence_depth }

/-- Modelled from the spec: the ShiftScheduler while-loop body — as long as
`cumulative_offset ≥ cell_width`, fire a shift (spec §4.3 "Multiple shifts
per call").  The loop is expressed with an explicit iteration budget; the
budget chosen in `run_shift_scheduler` is proven sufficient below. -/
def shift_loop (cfg : Config) : ℕ → State → State
  | 0, s => s
  | fuel + 1, s =>
    if cfg.cell_width ≤ s.cumulative_offset then
      shift_loop cfg fuel (do_one_shift cfg s)
    else s

/-- Modelled from the spec: an iteration budget that dominates the number of
firings of the while loop (one more than `⌊cumulative_offset / cell_width⌋`). -/
def shift_fuel (cfg : Config) (s : State) : ℕ :=
  (⌊s.cumulative_offset / cfg.cell_width⌋).toNat + 1

/-- Modelled from the spec: the ShiftScheduler — fire shifts repeatedly while
`cumulative_offset ≥ cell_width` (spec §4.3). -/
def run_shift_scheduler (cfg : Config) (s : State) : State :=
  shift_loop cfg (shift_fuel cfg s) s

/-- Modelled from the spec: the error taxonomy entry for a non-positive `dt`
passed to `run_one_step` (spec §7 "InvalidStepArgument"). -/
inductive StepError where
  | invalidStepArgument
deriving DecidableEq

/-- Modelled from the spec: `run_one_step(dt)` (spec §4.2) — validate `dt`
before any mutation (spec §5, §7), then perform steps 1–5 in order.  The
result pairs the post-call state (unchanged on error) with the raised
error, if any. -/
def run_one_step (cfg : Config) (dt : ℚ) (s : State) : State × Option StepError :=
  if dt ≤ 0 then (s, some StepError.invalidStepArgument)
  else (run_shift_scheduler cfg (advance_offset cfg dt (apply_vertical cfg dt s)), none)

/-- Modelled from the spec: the state at construction — caller-supplied
elevation, thickness and extra fields, a zero subsidence-rate output field,
zero cumulative offset, hangingwall edge at the initial fault location, and a
zero cumulative-subsidence field (spec §3 lifecycle). -/
def init_state (cfg : Config) (elev0 thick0 : ℕ → ℚ) (extras0 : List (ℕ → ℚ)) : State :=
  { elevation := elev0,
    thickness := thick0,
    extra_fields := extras0,
    subsidence_rate := fun _ => 0,
    cumulative_offset := 0,
    hangingwall_edge := cfg.initial_fault_location,
    cumulative_subsidence_depth := fun _ => 0 }

/-- Modelled from the spec: the configuration validity conditions checked at
construction (spec §6/§7): positive extension rate, positive surface gradient
(from `0 < fault_dip < 90`), positive detachment depth, positive cell width,
and a fault location strictly inside the mesh extent. -/
abbrev Valid (cfg : Config) : Prop :=
  0 < cfg.extension_rate ∧ 0 < cfg.G0 ∧ 0 < cfg.detachment_depth ∧
    0 < cfg.cell_width ∧ 0 < cfg.initial_fault_location

/-- Modelled from the spec: states reachable by the component during a run —
the constructed state, closed under successful `run_one_step` calls and
`update_subsidence_rate` calls (spec §3 lifecycle). -/
inductive Reachable (cfg : Config) : State → Prop where
  | init : ∀ elev0 thick0 extras0, Reachable cfg (init_state cfg elev0 thick0 extras0)
  | step : ∀ {s : State} (dt : ℚ), 0 < dt → Reachable cfg s →
      Reachable cfg (run_one_step cfg dt s).1
  | rate : ∀ {s : State}, Reachable cfg s → Reachable cfg (update_subsidence_rate cfg s)

/-- Modelled from the spec: the number of steps iteration used by the
testable property §8.2 — `N` successive calls of `run_one_step` with a fixed
time step. -/
def run_steps (cfg : Config) (dt : ℚ) (s : State) : ℕ → State
  | 0 => s
  | n + 1 => (run_one_step cfg dt (run_steps cfg dt s n)).1

/-- Sample configuration used to exercise the model on concrete inputs:
unit extension rate, unit surface gradient, fault trace at x = 1, unit
detachment depth, unit cell width, thickness tracking enabled, and a
constant stand-in for the exponential. -/
def sample_config : Config :=
  { extension_rate := 1, G0 := 1, initial_fault_location := 1,
    detachment_depth := 1, cell_width := 1, track_crustal_thickness := true,
    expf := fun _ => 1 }

/-- Sample initial elevation field: flat at zero. -/
def sample_elevation : ℕ → ℚ := fun _ => 0

/-- Sample initial crustal-thickness field: constant 10. -/
def sample_thickness : ℕ → ℚ := fun _ => 10

/-- Sample constructed state over the sample configuration. -/
def sample_state : State :=
  init_state sample_config sample_elevation sample_thickness []

/-! ## Basic lemmas about the step pipeline and the shift scheduler -/

theorem run_one_step_pos (cfg : Config) {dt : ℚ} (hdt : 0 < dt) (s : State) :
    run_one_step cfg dt s
      = (run_shift_scheduler cfg (advance_offset cfg dt (apply_vertical cfg dt s)), none) := by
  simp [run_one_step, not_le.mpr hdt]

theorem do_one_shift_edge (cfg : Config) (s : State) :
    (do_one_shift cfg s).hangingwall_edge = s.hangingwall_edge + cfg.cell_width := rfl

theorem do_one_shift_offset (cfg : Config) (s : State) :
    (do_one_shift cfg s).cumulative_offset = s.cumulative_offset - cfg.cell_width := rfl

theorem shift_loop_subsidence_rate (cfg : Config) (fuel : ℕ) (s : State) :
    (shift_loop cfg fuel s).subsidence_rate = s.subsidence_rate := by
  induction fuel generalizing s with
  | zero => rfl
  | succ n ih =>
    by_cases h : cfg.cell_width ≤ s.cumulative_offset
    · simpa [shift_loop, h] using ih (do_one_shift cfg s)
    · simp [shift_loop, h]

theorem shift_loop_offset_edge (cfg : Config) (fuel : ℕ) (s : State) :
    ∃ k : ℕ,
      (shift_loop cfg fuel s).hangingwall_edge
          = s.hangingwall_edge + (k : ℚ) * cfg.cell_width
        ∧ (shift_loop cfg fuel s).cumulative_offset
            = s.cumulative_offset - (k : ℚ) * cfg.cell_width := by
  induction fuel generalizing s with
  | zero => exact ⟨0, by simp [shift_loop]⟩
  | succ n ih =>
    by_cases h : cfg.cell_width ≤ s.cumulative_offset
    · obtain ⟨k, he, ho⟩ := ih (do_one_shift cfg s)
      refine ⟨k + 1, ?_, ?_⟩ <;>
        simp only [shift_loop, if_pos h, he, ho, do_one_shift_edge, do_one_shift_offset] <;>
        push_cast <;> ring
    · exact ⟨0, by simp [shift_loop, h]⟩

theorem shift_loop_bound (cfg : Config) :
    ∀ (fuel : ℕ) (s : State), 0 ≤ s.cumulative_offset →
      s.cumulative_offset < (fuel : ℚ) * cfg.cell_width →
      0 ≤ (shift_loop cfg fuel s).cumulative_offset
        ∧ (shift_loop cfg fuel s).cumulative_offset < cfg.cell_width := by
  intro fuel
  induction fuel with
  | zero =>
    intro s h0 hlt
    simp only [Nat.cast_zero, zero_mul] at hlt
    exact absurd (lt_of_le_of_lt h0 hlt) (lt_irrefl 0)
  | succ n ih =>
    intro s h0 hlt
    by_cases h : cfg.cell_width ≤ s.cumulative_offset
    · simp only [shift_loop, if_pos h]
      apply ih (do_one_shift cfg s)
      · simpa [do_one_shift_offset] using h
      · have hstep : s.cumulative_offset - cfg.cell_width < (n : ℚ) * cfg.cell_width := by
          push_cast at hlt
          linarith
        simpa [do_one_shift_offset] using hstep
    · simp only [shift_loop, if_neg h]
      exact ⟨h0, not_le.mp h⟩

theorem shift_fuel_sufficient (cfg : Config) (hdx : 0 < cfg.cell_width) (s : State)
    (h0 : 0 ≤ s.cumulative_offset) :
    s.cumulative_offset < (shift_fuel cfg s : ℚ) * cfg.cell_width := by
  have hq : 0 ≤ s.cumulative_offset / cfg.cell_width := div_nonneg h0 hdx.le
  have hfl : (0:ℤ) ≤ ⌊s.cumulative_offset / cfg.cell_width⌋ := Int.floor_nonneg.mpr hq
  have hcast : ((⌊s.cumulative_offset / cfg.cell_width⌋.toNat : ℕ) : ℚ)
      = ((⌊s.cumulative_offset / cfg.cell_width⌋ : ℤ) : ℚ) := by
    exact_mod_cast congrArg (fun z : ℤ => (z : ℚ)) (Int.toNat_of_nonneg hfl)
  have hlt : s.cumulative_offset / cfg.cell_width
      < (⌊s.cumulative_offset / cfg.cell_width⌋ : ℚ) + 1 := Int.lt_floor_add_one _
  have hmain := (div_lt_iff₀ hdx).mp hlt
  have hfuel : ((shift_fuel cfg s : ℕ) : ℚ)
      = (⌊s.cumulative_offset / cfg.cell_width⌋ : ℚ) + 1 := by
    simp only [shift_fuel, Nat.cast_add, Nat.cast_one, hcast]
  rw [hfuel]
  exact hmain

theorem run_shift_scheduler_bound (cfg : Config) (hdx : 0 < cfg.cell_width) (s : State)
    (h0 : 0 ≤ s.cumulative_offset) :
    0 ≤ (run_shift_scheduler cfg s).cumulative_offset
      ∧ (run_shift_scheduler cfg s).cumulative_offset < cfg.cell_width :=
  shift_loop_bound cfg (shift_fuel cfg s) s h0 (shift_fuel_sufficient cfg hdx s h0)

theorem run_shift_scheduler_offset_edge (cfg : Config) (s : State) :
    ∃ k : ℕ,
      (run_shift_scheduler cfg s).hangingwall_edge
          = s.hangingwall_edge + (k : ℚ) * cfg.cell_width
        ∧ (run_shift_scheduler cfg s).cumulative_offset
            = s.cumulative_offset - (k : ℚ) * cfg.cell_width :=
  shift_loop_offset_edge cfg (shift_fuel cfg s) s

theorem apply_vertical_offset (cfg : Config) (dt : ℚ) (s : State) :
    (apply_vertical cfg dt s).cumulative_offset = s.cumulative_offset := rfl

theorem apply_vertical_edge (cfg : Config) (dt : ℚ) (s : State) :
    (apply_vertical cfg dt s).hangingwall_edge = s.hangingwall_edge := rfl

theorem advance_offset_offset (cfg : Config) (dt : ℚ) (s : State) :
    (advance_offset cfg dt s).cumulative_offset
      = s.cumulative_offset + cfg.extension_rate * dt := rfl

theorem advance_offset_edge (cfg : Config) (dt : ℚ) (s : State) :
    (advance_offset cfg dt s).hangingwall_edge = s.hangingwall_edge := rfl

theorem run_shift_scheduler_subsidence_rate (cfg : Config) (s : State) :
    (run_shift_scheduler cfg s).subsidence_rate = s.subsidence_rate :=
  shift_loop_subsidence_rate cfg (shift_fuel cfg s) s

theorem subsidence_rate_at_footwall (cfg : Config) (edge : ℚ) {x : ℚ}
    (hx : x < cfg.initial_fault_location) : subsidence_rate_at cfg edge x = 0 := by
  unfold subsidence_rate_at
  rw [if_neg]
  rintro ⟨h1, -⟩
  exact absurd h1 (not_le.mpr hx)

theorem subsidence_rate_at_edge_indep (cfg : Config) {e e' x : ℚ} (h : e ≤ x) (h' : e' ≤ x) :
    subsidence_rate_at cfg e x = subsidence_rate_at cfg e' x := by
  unfold subsidence_rate_at
  by_cases hf : cfg.initial_fault_location ≤ x
  · rw [if_pos ⟨hf, h⟩, if_pos ⟨hf, h'⟩]
  · rw [if_neg, if_neg] <;> rintro ⟨h1, -⟩ <;> exact hf h1

theorem reachable_offset_nonneg {cfg : Config} (hv : Valid cfg) {s : State}
    (hs : Reachable cfg s) : 0 ≤ s.cumulative_offset := by
  induction hs with
  | init elev0 thick0 extras0 => exact le_refl 0
  | step dt hdt hr ih =>
    rw [run_one_step_pos _ hdt]
    refine (run_shift_scheduler_bound _ hv.2.2.2.1 _ ?_).1
    rw [advance_offset_offset, apply_vertical_offset]
    exact add_nonneg ih (mul_nonneg hv.1.le hdt.le)
  | rate hr ih => exact ih

theorem reachable_rate_footwall {cfg : Config} {s : State} (hs : Reachable cfg s) :
    ∀ i, xcoord cfg i < cfg.initial_fault_location → s.subsidence_rate i = 0 := by
  induction hs with
  | init elev0 thick0 extras0 => intro i hi; rfl
  | step dt hdt hr ih =>
    intro i hi
    rw [run_one_step_pos _ hdt]
    show (run_shift_scheduler cfg _).subsidence_rate i = 0
    rw [run_shift_scheduler_subsidence_rate]
    exact subsidence_rate_at_footwall cfg _ hi
  | rate hr ih =>
    intro i hi
    exact subsidence_rate_at_footwall cfg _ hi

theorem step_edge_mono {cfg : Config} (hv : Valid cfg) {dt : ℚ} (hdt : 0 < dt) (s : State) :
    s.hangingwall_edge ≤ ((run_one_step cfg dt s).1).hangingwall_edge := by
  rw [run_one_step_pos _ hdt]
  show s.hangingwall_edge ≤ (run_shift_scheduler cfg _).hangingwall_edge
  obtain ⟨k, he, -⟩ :=
    run_shift_scheduler_offset_edge cfg (advance_offset cfg dt (apply_vertical cfg dt s))
  rw [he, advance_offset_edge, apply_vertical_edge]
  have hk : (0:ℚ) ≤ (k : ℚ) * cfg.cell_width :=
    mul_nonneg (by positivity) hv.2.2.2.1.le
  linarith

theorem run_one_step_pos_fst (cfg : Config) {dt : ℚ} (hdt : 0 < dt) (s : State) :
    (run_one_step cfg dt s).1
      = run_shift_scheduler cfg (advance_offset cfg dt (apply_vertical cfg dt s)) := by
  rw [run_one_step_pos _ hdt]

theorem run_steps_invariant {cfg : Config} (hv : Valid cfg) {dt : ℚ} (hdt : 0 < dt)
    (elev0 thick0 : ℕ → ℚ) (extras0 : List (ℕ → ℚ)) (N : ℕ) :
    ∃ m : ℕ,
      (run_steps cfg dt (init_state cfg elev0 thick0 extras0) N).hangingwall_edge
          = cfg.initial_fault_location + (m : ℚ) * cfg.cell_width
        ∧ (run_steps cfg dt (init_state cfg elev0 thick0 extras0) N).cumulative_offset
            = cfg.extension_rate * dt * (N : ℚ) - (m : ℚ) * cfg.cell_width
        ∧ 0 ≤ (run_steps cfg dt (init_state cfg elev0 thick0 extras0) N).cumulative_offset
        ∧ (run_steps cfg dt (init_state cfg elev0 thick0 extras0) N).cumulative_offset
            < cfg.cell_width := by
  induction N with
  | zero =>
    refine ⟨0, by simp [run_steps, init_state], by simp [run_steps, init_state], ?_, ?_⟩
    · simp [run_steps, init_state]
    · simpa [run_steps, init_state] using hv.2.2.2.1
  | succ n ih =>
    obtain ⟨m, he, ho, h0, hlt⟩ := ih
    have hpre : 0 ≤ (advance_offset cfg dt
        (apply_vertical cfg dt
          (run_steps cfg dt (init_state cfg elev0 thick0 extras0) n))).cumulative_offset := by
      rw [advance_offset_offset, apply_vertical_offset]
      exact add_nonneg h0 (mul_nonneg hv.1.le hdt.le)
    have hb := run_shift_scheduler_bound cfg hv.2.2.2.1 _ hpre
    obtain ⟨k, hke, hko⟩ := run_shift_scheduler_offset_edge cfg
      (advance_offset cfg dt
        (apply_vertical cfg dt (run_steps cfg dt (init_state cfg elev0 thick0 extras0) n)))
    refine ⟨m + k, ?_, ?_, ?_, ?_⟩
    · simp only [run_steps, run_one_step_pos_fst _ hdt]
      rw [hke, advance_offset_edge, apply_vertical_edge, he]
      push_cast
      ring
    · simp only [run_steps, run_one_step_pos_fst _ hdt]
      rw [hko, advance_offset_offset, apply_vertical_offset, ho]
      push_cast
      ring
    · simp only [run_steps, run_one_step_pos_fst _ hdt]
      exact hb.1
    · simp only [run_steps, run_one_step_pos_fst _ hdt]
      exact hb.2

theorem node_index_pos {cfg : Config} (hv : Valid cfg) {e : ℚ}
    (he : cfg.initial_fault_location ≤ e) {i : ℕ} (hi : e ≤ xcoord cfg i) : 1 ≤ i := by
  rcases Nat.eq_zero_or_pos i with h0 | h1
  · subst h0
    have hx : xcoord cfg 0 = 0 := by simp [xcoord]
    rw [hx] at hi
    exact absurd (lt_of_lt_of_le hv.2.2.2.2 (le_trans he hi)) (lt_irrefl 0)
  · exact h1

theorem shiftField_hangingwall {cfg : Config} (hv : Valid cfg) {boundary : ℚ}
    (hb : cfg.initial_fault_location ≤ boundary) (f : ℕ → ℚ) {i : ℕ}
    (hi : boundary ≤ xcoord cfg i) : shiftField cfg boundary f i = f (i - 1) := by
  unfold shiftField
  rw [if_pos ⟨hi, node_index_pos hv hb hi⟩]

theorem shiftField_outside (cfg : Config) {boundary : ℚ} (f : ℕ → ℚ) {i : ℕ}
    (hi : ¬ boundary ≤ xcoord cfg i) : shiftField cfg boundary f i = f i := by
  unfold shiftField
  rw [if_neg]
  rintro ⟨h1, -⟩
  exact hi h1

theorem do_one_shift_thickness_track {cfg : Config} (htrack : cfg.track_crustal_thickness = true)
    (s : State) (i : ℕ) :
    (do_one_shift cfg s).thickness i
      = if s.hangingwall_edge ≤ xcoord cfg i then
          shiftField cfg s.hangingwall_edge s.thickness i - s.cumulative_subsidence_depth i
        else shiftField cfg s.hangingwall_edge s.thickness i := by
  simp [do_one_shift, htrack]

theorem do_one_shift_thickness_notrack {cfg : Config}
    (htrack : cfg.track_crustal_thickness = false) (s : State) :
    (do_one_shift cfg s).thickness = s.thickness := by
  simp [do_one_shift, htrack]

theorem do_one_shift_cumulative_track {cfg : Config}
    (htrack : cfg.track_crustal_thickness = true) (s : State) (i : ℕ) :
    (do_one_shift cfg s).cumulative_subsidence_depth i = 0 := by
  simp [do_one_shift, htrack]

theorem edge_floor_formula {cfg : Config} (hv : Valid cfg) {dt : ℚ} (hdt : 0 < dt)
    (elev0 thick0 : ℕ → ℚ) (extras0 : List (ℕ → ℚ)) (N : ℕ) :
    (run_steps cfg dt (init_state cfg elev0 thick0 extras0) N).hangingwall_edge
        = cfg.initial_fault_location
          + cfg.cell_width * (⌊cfg.extension_rate * dt * (N : ℚ) / cfg.cell_width⌋ : ℚ) := by
  obtain ⟨m, he, ho, h0, hlt⟩ := run_steps_invariant hv hdt elev0 thick0 extras0 N
  have hdx := hv.2.2.2.1
  have hfloor : ⌊cfg.extension_rate * dt * (N : ℚ) / cfg.cell_width⌋ = (m : ℤ) := by
    rw [Int.floor_eq_iff]
    constructor
    · rw [le_div_iff₀ hdx]
      push_cast
      linarith
    · rw [div_lt_iff₀ hdx]
      push_cast
      linarith
  rw [he, hfloor]
  push_cast
  ring

/-! ## Claim theorems -/

/-- C1: at every reachable state, the subsidence-rate field computed by the
SubsidenceModel (invoked by step 1 of `run_one_step` and by
`update_subsidence_rate`) equals `-u * G0 * expf(-d * G0 / h)` with
`d = max(x - initial_fault_location, 0)` at every node at or beyond the fault
trace and at or beyond the current hangingwall edge, and `0` at every other
node; in particular the stored rate field is `0` at every node strictly left
of the fault trace, at every step, always. -/
theorem C1_subsidence_rate_field {cfg : Config} {s : State} (hs : Reachable cfg s) :
    (∀ i, (update_subsidence_rate cfg s).subsidence_rate i
        = (if cfg.initial_fault_location ≤ xcoord cfg i
              ∧ s.hangingwall_edge ≤ xcoord cfg i then
            -cfg.extension_rate * cfg.G0 *
              cfg.expf (-(max (xcoord cfg i - cfg.initial_fault_location) 0) * cfg.G0
                / cfg.detachment_depth)
          else 0))
      ∧ ∀ i, xcoord cfg i < cfg.initial_fault_location → s.subsidence_rate i = 0 :=
  ⟨fun _ => rfl, reachable_rate_footwall hs⟩

/-- Witness for C1 at the sample configuration and its constructed state. -/
theorem C1_subsidence_rate_field_witness :
    Reachable sample_config sample_state
      ∧ ((∀ i, (update_subsidence_rate sample_config sample_state).subsidence_rate i
            = (if sample_config.initial_fault_location ≤ xcoord sample_config i
                  ∧ sample_state.hangingwall_edge ≤ xcoord sample_config i then
                -sample_config.extension_rate * sample_config.G0 *
                  sample_config.expf
                    (-(max (xcoord sample_config i - sample_config.initial_fault_location) 0)
                      * sample_config.G0 / sample_config.detachment_depth)
              else 0))
          ∧ ∀ i, xcoord sample_config i < sample_config.initial_fault_location →
              sample_state.subsidence_rate i = 0) :=
  ⟨Reachable.init sample_elevation sample_thickness [],
    C1_subsidence_rate_field (Reachable.init sample_elevation sample_thickness [])⟩

/-- C2: for every positive `dt`, `run_one_step(dt)` succeeds and performs, in
order: compute the subsidence-rate field from the *current*
`hangingwall_edge`, update `elevation -= subsidence_rate * dt` at every node
unconditionally, advance `cumulative_offset += extension_rate * dt`, and only
then invoke the shift scheduler on the result. -/
theorem C2_step_order (cfg : Config) (dt : ℚ) (s : State) (hdt : 0 < dt) :
    (run_one_step cfg dt s).2 = none
      ∧ (run_one_step cfg dt s).1
          = run_shift_scheduler cfg (advance_offset cfg dt (apply_vertical cfg dt s))
      ∧ (apply_vertical cfg dt s).subsidence_rate
          = (fun i => subsidence_rate_at cfg s.hangingwall_edge (xcoord cfg i))
      ∧ (∀ i, (apply_vertical cfg dt s).elevation i
          = s.elevation i - (apply_vertical cfg dt s).subsidence_rate i * dt)
      ∧ (advance_offset cfg dt (apply_vertical cfg dt s)).cumulative_offset
          = s.cumulative_offset + cfg.extension_rate * dt
      ∧ (apply_vertical cfg dt s).cumulative_offset = s.cumulative_offset
      ∧ (apply_vertical cfg dt s).hangingwall_edge = s.hangingwall_edge := by
  refine ⟨?_, run_one_step_pos_fst cfg hdt s, rfl, fun _ => rfl, rfl, rfl, rfl⟩
  rw [run_one_step_pos cfg hdt]

/-- Witness for C2 at the sample configuration with `dt = 1`. -/
theorem C2_step_order_witness :
    (0:ℚ) < 1
      ∧ ((run_one_step sample_config 1 sample_state).2 = none
          ∧ (run_one_step sample_config 1 sample_state).1
              = run_shift_scheduler sample_config
                  (advance_offset sample_config 1 (apply_vertical sample_config 1 sample_state))
          ∧ (apply_vertical sample_config 1 sample_state).subsidence_rate
              = (fun i =>
                  subsidence_rate_at sample_config sample_state.hangingwall_edge
                    (xcoord sample_config i))
          ∧ (∀ i, (apply_vertical sample_config 1 sample_state).elevation i
              = sample_state.elevation i
                - (apply_vertical sample_config 1 sample_state).subsidence_rate i * 1)
          ∧ (advance_offset sample_config 1
                (apply_vertical sample_config 1 sample_state)).cumulative_offset
              = sample_state.cumulative_offset + sample_config.extension_rate * 1
          ∧ (apply_vertical sample_config 1 sample_state).cumulative_offset
              = sample_state.cumulative_offset
          ∧ (apply_vertical sample_config 1 sample_state).hangingwall_edge
              = sample_state.hangingwall_edge) :=
  ⟨by decide, C2_step_order sample_config 1 sample_state (by decide)⟩

/-- C3: after any successful `run_one_step(dt)` from a reachable state,
`0 ≤ cumulative_offset < cell_width`; each firing of the scheduler decrements
`cumulative_offset` and increments `hangingwall_edge` by exactly one cell
width; and the sum `cumulative_offset + hangingwall_edge` is exactly the
pre-step sum plus `extension_rate * dt`, so no accumulated offset is dropped
however large `dt` is. -/
theorem C3_offset_invariant {cfg : Config} (hv : Valid cfg) {s : State}
    (hs : Reachable cfg s) {dt : ℚ} (hdt : 0 < dt) :
    (0 ≤ ((run_one_step cfg dt s).1).cumulative_offset
        ∧ ((run_one_step cfg dt s).1).cumulative_offset < cfg.cell_width)
      ∧ (∀ t : State,
          (do_one_shift cfg t).cumulative_offset = t.cumulative_offset - cfg.cell_width
            ∧ (do_one_shift cfg t).hangingwall_edge = t.hangingwall_edge + cfg.cell_width)
      ∧ ((run_one_step cfg dt s).1).cumulative_offset
            + ((run_one_step cfg dt s).1).hangingwall_edge
          = s.cumulative_offset + cfg.extension_rate * dt + s.hangingwall_edge := by
  have hpre : 0 ≤ (advance_offset cfg dt (apply_vertical cfg dt s)).cumulative_offset := by
    rw [advance_offset_offset, apply_vertical_offset]
    exact add_nonneg (reachable_offset_nonneg hv hs) (mul_nonneg hv.1.le hdt.le)
  have hb := run_shift_scheduler_bound cfg hv.2.2.2.1 _ hpre
  obtain ⟨k, hke, hko⟩ :=
    run_shift_scheduler_offset_edge cfg (advance_offset cfg dt (apply_vertical cfg dt s))
  refine ⟨?_, fun t => ⟨rfl, rfl⟩, ?_⟩
  · rw [run_one_step_pos_fst _ hdt]
    exact hb
  · rw [run_one_step_pos_fst _ hdt, hko, hke, advance_offset_offset, advance_offset_edge,
      apply_vertical_offset, apply_vertical_edge]
    ring

/-- Witness for C3 at the sample configuration with `dt = 1`. -/
theorem C3_offset_invariant_witness :
    Valid sample_config ∧ Reachable sample_config sample_state ∧ (0:ℚ) < 1
      ∧ ((0 ≤ ((run_one_step sample_config 1 sample_state).1).cumulative_offset
            ∧ ((run_one_step sample_config 1 sample_state).1).cumulative_offset
                < sample_config.cell_width)
          ∧ (∀ t : State,
              (do_one_shift sample_config t).cumulative_offset
                  = t.cumulative_offset - sample_config.cell_width
                ∧ (do_one_shift sample_config t).hangingwall_edge
                    = t.hangingwall_edge + sample_config.cell_width)
          ∧ ((run_one_step sample_config 1 sample_state).1).cumulative_offset
                + ((run_one_step sample_config 1 sample_state).1).hangingwall_edge
              = sample_state.cumulative_offset + sample_config.extension_rate * 1
                + sample_state.hangingwall_edge) :=
  ⟨by decide, Reachable.init sample_elevation sample_thickness [], by decide,
    C3_offset_invariant (by decide)
      (Reachable.init sample_elevation sample_thickness []) (by decide)⟩

/-- C4: starting from construction, after `N` steps of fixed positive `dt`,
`hangingwall_edge = initial_fault_location
+ cell_width * ⌊extension_rate * dt * N / cell_width⌋` exactly; the edge
starts at `initial_fault_location` and is monotonically non-decreasing. -/
theorem C4_edge_staircase {cfg : Config} (hv : Valid cfg) {dt : ℚ} (hdt : 0 < dt)
    (elev0 thick0 : ℕ → ℚ) (extras0 : List (ℕ → ℚ)) (N : ℕ) :
    (run_steps cfg dt (init_state cfg elev0 thick0 extras0) N).hangingwall_edge
        = cfg.initial_fault_location
          + cfg.cell_width * (⌊cfg.extension_rate * dt * (N : ℚ) / cfg.cell_width⌋ : ℚ)
      ∧ (∀ k : ℕ,
          (run_steps cfg dt (init_state cfg elev0 thick0 extras0) k).hangingwall_edge
            ≤ (run_steps cfg dt (init_state cfg elev0 thick0 extras0) (k + 1)).hangingwall_edge)
      ∧ (run_steps cfg dt (init_state cfg elev0 thick0 extras0) 0).hangingwall_edge
          = cfg.initial_fault_location := by
  refine ⟨edge_floor_formula hv hdt elev0 thick0 extras0 N, fun k => ?_, rfl⟩
  simp only [run_steps]
  exact step_edge_mono hv hdt _

/-- Witness for C4 at the sample configuration, `dt = 1`, `N = 5`. -/
theorem C4_edge_staircase_witness :
    Valid sample_config ∧ (0:ℚ) < 1
      ∧ ((run_steps sample_config 1
            (init_state sample_config sample_elevation sample_thickness []) 5).hangingwall_edge
            = sample_config.initial_fault_location
              + sample_config.cell_width
                * (⌊sample_config.extension_rate * 1 * ((5:ℕ) : ℚ)
                    / sample_config.cell_width⌋ : ℚ)
          ∧ (∀ k : ℕ,
              (run_steps sample_config 1
                (init_state sample_config sample_elevation sample_thickness []) k).hangingwall_edge
                ≤ (run_steps sample_config 1
                    (init_state sample_config sample_elevation sample_thickness [])
                    (k + 1)).hangingwall_edge)
          ∧ (run_steps sample_config 1
              (init_state sample_config sample_elevation sample_thickness []) 0).hangingwall_edge
              = sample_config.initial_fault_location) :=
  ⟨by decide, by decide,
    C4_edge_staircase (by decide) (by decide) sample_elevation sample_thickness [] 5⟩

/-- C5 counterexample: with thickness tracking enabled, a shift firing that
occurs during an actual run is not a pure translation of the
crustal-thickness field.  At the sample configuration, after the vertical
update and offset advance of `run_one_step(1)` on the constructed state, the
scheduler fires (`cumulative_offset ≥ cell_width`); node 1 lies at or beyond
the pre-shift hangingwall boundary, yet its post-shift thickness differs from
the pre-shift thickness of its left neighbor (the firing also subtracts the
accumulated subsidence, C7's behavior). -/
theorem C5_translation_counterexample :
    sample_config.track_crustal_thickness = true
      ∧ sample_config.cell_width
          ≤ (advance_offset sample_config 1
              (apply_vertical sample_config 1 sample_state)).cumulative_offset
      ∧ (advance_offset sample_config 1
            (apply_vertical sample_config 1 sample_state)).hangingwall_edge
          ≤ xcoord sample_config 1
      ∧ (do_one_shift sample_config
            (advance_offset sample_config 1 (apply_vertical sample_config 1 sample_state))).thickness 1
          ≠ (advance_offset sample_config 1
              (apply_vertical sample_config 1 sample_state)).thickness 0 := by
  norm_num [sample_config, sample_state, sample_elevation, sample_thickness, advance_offset,
    apply_vertical, do_one_shift, shiftField, subsidence_rate_at, dist_from_fault, xcoord,
    init_state]

/-- C5 (amended): each shift firing is a pure translation for elevation and
for every field in `fields_to_shift` (post-shift value at a node at or beyond
the pre-shift hangingwall boundary equals the pre-shift value of its left
neighbor one cell lower in x), while the crustal-thickness field, when
tracking is enabled, equals the pre-shift left-neighbor thickness minus the
subsidence accumulated at the node since the last shift; no value is invented
or interpolated, and nodes with x below the fault trace are never modified. -/
theorem C5_shift_translation_amended {cfg : Config} (hv : Valid cfg) {s : State}
    (hedge : cfg.initial_fault_location ≤ s.hangingwall_edge) :
    (∀ i, s.hangingwall_edge ≤ xcoord cfg i →
        (do_one_shift cfg s).elevation i = s.elevation (i - 1)
          ∧ List.Forall₂ (fun f g => g i = f (i - 1)) s.extra_fields
              (do_one_shift cfg s).extra_fields
          ∧ (cfg.track_crustal_thickness = true →
              (do_one_shift cfg s).thickness i
                = s.thickness (i - 1) - s.cumulative_subsidence_depth i))
      ∧ ∀ i, xcoord cfg i < cfg.initial_fault_location →
          (do_one_shift cfg s).elevation i = s.elevation i
            ∧ List.Forall₂ (fun f g => g i = f i) s.extra_fields
                (do_one_shift cfg s).extra_fields
            ∧ (do_one_shift cfg s).thickness i = s.thickness i := by
  constructor
  · intro i hi
    refine ⟨shiftField_hangingwall hv hedge _ hi, ?_, ?_⟩
    · show List.Forall₂ _ s.extra_fields (s.extra_fields.map (shiftField cfg s.hangingwall_edge))
      rw [List.forall₂_map_right_iff]
      exact List.forall₂_same.mpr fun f _ => shiftField_hangingwall hv hedge f hi
    · intro htrack
      rw [do_one_shift_thickness_track htrack, if_pos hi,
        shiftField_hangingwall hv hedge _ hi]
  · intro i hi
    have hout : ¬ s.hangingwall_edge ≤ xcoord cfg i :=
      not_le.mpr (lt_of_lt_of_le hi hedge)
    refine ⟨shiftField_outside cfg _ hout, ?_, ?_⟩
    · show List.Forall₂ _ s.extra_fields (s.extra_fields.map (shiftField cfg s.hangingwall_edge))
      rw [List.forall₂_map_right_iff]
      exact List.forall₂_same.mpr fun f _ => shiftField_outside cfg f hout
    · cases htr : cfg.track_crustal_thickness with
      | false => rw [do_one_shift_thickness_notrack htr]
      | true =>
        rw [do_one_shift_thickness_track htr, if_neg hout, shiftField_outside cfg _ hout]

/-- Witness for the amended C5 at the sample configuration and state. -/
theorem C5_shift_translation_amended_witness :
    Valid sample_config
      ∧ sample_config.initial_fault_location ≤ sample_state.hangingwall_edge
      ∧ ((∀ i, sample_state.hangingwall_edge ≤ xcoord sample_config i →
            (do_one_shift sample_config sample_state).elevation i
                = sample_state.elevation (i - 1)
              ∧ List.Forall₂ (fun f g => g i = f (i - 1)) sample_state.extra_fields
                  (do_one_shift sample_config sample_state).extra_fields
              ∧ (sample_config.track_crustal_thickness = true →
                  (do_one_shift sample_config sample_state).thickness i
                    = sample_state.thickness (i - 1)
                      - sample_state.cumulative_subsidence_depth i))
          ∧ ∀ i, xcoord sample_config i < sample_config.initial_fault_location →
              (do_one_shift sample_config sample_state).elevation i
                  = sample_state.elevation i
                ∧ List.Forall₂ (fun f g => g i = f i) sample_state.extra_fields
                    (do_one_shift sample_config sample_state).extra_fields
                ∧ (do_one_shift sample_config sample_state).thickness i
                    = sample_state.thickness i) :=
  ⟨by decide, by decide, C5_shift_translation_amended (by decide) (by decide)⟩

/-- C7: with thickness tracking enabled, immediately after any shift firing
the cumulative-subsidence field is `0` at every node (in particular at every
hangingwall node), and the thickness at each node at or beyond the pre-shift
hangingwall boundary equals the pre-shift left-neighbor thickness minus the
subsidence accumulated at that node since the previous shift. -/
theorem C7_thickness_bookkeeping {cfg : Config} (hv : Valid cfg)
    (htrack : cfg.track_crustal_thickness = true) {s : State}
    (hedge : cfg.initial_fault_location ≤ s.hangingwall_edge) :
    (∀ i, (do_one_shift cfg s).cumulative_subsidence_depth i = 0)
      ∧ ∀ i, s.hangingwall_edge ≤ xcoord cfg i →
          (do_one_shift cfg s).thickness i
            = s.thickness (i - 1) - s.cumulative_subsidence_depth i := by
  refine ⟨fun i => do_one_shift_cumulative_track htrack s i, fun i hi => ?_⟩
  rw [do_one_shift_thickness_track htrack, if_pos hi, shiftField_hangingwall hv hedge _ hi]

/-- Witness for C7 at the sample configuration and state. -/
theorem C7_thickness_bookkeeping_witness :
    Valid sample_config
      ∧ sample_config.track_crustal_thickness = true
      ∧ sample_config.initial_fault_location ≤ sample_state.hangingwall_edge
      ∧ ((∀ i, (do_one_shift sample_config sample_state).cumulative_subsidence_depth i = 0)
          ∧ ∀ i, sample_state.hangingwall_edge ≤ xcoord sample_config i →
              (do_one_shift sample_config sample_state).thickness i
                = sample_state.thickness (i - 1)
                  - sample_state.cumulative_subsidence_depth i) :=
  ⟨by decide, rfl, by decide,
    C7_thickness_bookkeeping (by decide) rfl (by decide)⟩

/-- C8: for every non-positive `dt`, `run_one_step(dt)` raises
`InvalidStepArgument` and the post-call state is exactly the pre-call state —
no field or state variable has been mutated. -/
theorem C8_invalid_step_argument (cfg : Config) (dt : ℚ) (s : State) (hdt : dt ≤ 0) :
    run_one_step cfg dt s = (s, some StepError.invalidStepArgument) := by
  simp [run_one_step, hdt]

/-- Witness for C8 at the sample configuration with `dt = 0`. -/
theorem C8_invalid_step_argument_witness :
    (0:ℚ) ≤ 0
      ∧ run_one_step sample_config 0 sample_state
          = (sample_state, some StepError.invalidStepArgument) :=
  ⟨by decide, C8_invalid_step_argument sample_config 0 sample_state (by decide)⟩

/-- C9: `update_subsidence_rate` is read-only on all other state — elevation,
thickness, the extra fields, `cumulative_offset`, `hangingwall_edge` and the
cumulative-subsidence field are unchanged — and idempotent: a second call
without an intervening step produces an identical state (hence an identical
`subsidence_rate` field). -/
theorem C9_update_rate_readonly_idempotent (cfg : Config) (s : State) :
    (update_subsidence_rate cfg s).elevation = s.elevation
      ∧ (update_subsidence_rate cfg s).thickness = s.thickness
      ∧ (update_subsidence_rate cfg s).extra_fields = s.extra_fields
      ∧ (update_subsidence_rate cfg s).cumulative_offset = s.cumulative_offset
      ∧ (update_subsidence_rate cfg s).hangingwall_edge = s.hangingwall_edge
      ∧ (update_subsidence_rate cfg s).cumulative_subsidence_depth
          = s.cumulative_subsidence_depth
      ∧ update_subsidence_rate cfg (update_subsidence_rate cfg s)
          = update_subsidence_rate cfg s :=
  ⟨rfl, rfl, rfl, rfl, rfl, rfl, rfl⟩

/-- C10: the rate formula's exponent uses distance from the initial fault
location only, so across one step the computed rate at any node still at or
beyond both the old and new hangingwall edge is unchanged; the edge is
non-decreasing across a step; and the set of nodes with nonzero computed rate
never grows from one step to the next. -/
theorem C10_rate_constant_shrinking {cfg : Config} (hv : Valid cfg) (s : State)
    {dt : ℚ} (hdt : 0 < dt) :
    (∀ i, s.hangingwall_edge ≤ xcoord cfg i →
        ((run_one_step cfg dt s).1).hangingwall_edge ≤ xcoord cfg i →
        (update_subsidence_rate cfg ((run_one_step cfg dt s).1)).subsidence_rate i
          = (update_subsidence_rate cfg s).subsidence_rate i)
      ∧ s.hangingwall_edge ≤ ((run_one_step cfg dt s).1).hangingwall_edge
      ∧ ∀ i, (update_subsidence_rate cfg ((run_one_step cfg dt s).1)).subsidence_rate i ≠ 0 →
          (update_subsidence_rate cfg s).subsidence_rate i ≠ 0 := by
  refine ⟨?_, step_edge_mono hv hdt s, ?_⟩
  · intro i h1 h2
    exact subsidence_rate_at_edge_indep cfg h2 h1
  · intro i hne
    have hmono := step_edge_mono hv hdt s
    by_cases hmask : cfg.initial_fault_location ≤ xcoord cfg i
        ∧ ((run_one_step cfg dt s).1).hangingwall_edge ≤ xcoord cfg i
    · have heq : subsidence_rate_at cfg s.hangingwall_edge (xcoord cfg i)
          = subsidence_rate_at cfg ((run_one_step cfg dt s).1).hangingwall_edge
              (xcoord cfg i) :=
        subsidence_rate_at_edge_indep cfg (le_trans hmono hmask.2) hmask.2
      show subsidence_rate_at cfg s.hangingwall_edge (xcoord cfg i) ≠ 0
      rw [heq]
      exact hne
    · exfalso
      exact hne (by
        show subsidence_rate_at cfg ((run_one_step cfg dt s).1).hangingwall_edge
            (xcoord cfg i) = 0
        unfold subsidence_rate_at
        rw [if_neg hmask])

/-- Witness for C10 at the sample configuration with `dt = 1`. -/
theorem C10_rate_constant_shrinking_witness :
    Valid sample_config ∧ (0:ℚ) < 1
      ∧ ((∀ i, sample_state.hangingwall_edge ≤ xcoord sample_config i →
            ((run_one_step sample_config 1 sample_state).1).hangingwall_edge
                ≤ xcoord sample_config i →
            (update_subsidence_rate sample_config
                ((run_one_step sample_config 1 sample_state).1)).subsidence_rate i
              = (update_subsidence_rate sample_config sample_state).subsidence_rate i)
          ∧ sample_state.hangingwall_edge
              ≤ ((run_one_step sample_config 1 sample_state).1).hangingwall_edge
          ∧ ∀ i, (update_subsidence_rate sample_config
                ((run_one_step sample_config 1 sample_state).1)).subsidence_rate i ≠ 0 →
              (update_subsidence_rate sample_config sample_state).subsidence_rate i ≠ 0) :=
  ⟨by decide, by decide,
    C10_rate_constant_shrinking (by decide) sample_state (by decide)⟩

end ListricKinematicExtender
